import Mathlib

/-!
Shallow embedding of the core of `src/librbd/cache/ReplicatedWriteLog.{h,cc}`
(a pmem-backed replicated write log for rbd), together with proofs about the
properties its specification states.  Every definition is transcribed from the
C++ source; the file is organised as: data model and operations first, then
the theorems.
-/

namespace RWL

/-! ### Constants (ReplicatedWriteLog.h) -/

/-- `static const uint32_t MIN_WRITE_SIZE = 1;` -/
def MIN_WRITE_SIZE : Nat := 1

/-- `static const uint32_t MIN_MIN_WRITE_ALLOC_SIZE = 512;` -/
def MIN_MIN_WRITE_ALLOC_SIZE : Nat := 512

/-- `MIN_WRITE_ALLOC_SIZE = (MIN_WRITE_SIZE > MIN_MIN_WRITE_ALLOC_SIZE ? MIN_WRITE_SIZE : MIN_MIN_WRITE_ALLOC_SIZE)` -/
def MIN_WRITE_ALLOC_SIZE : Nat :=
  if MIN_WRITE_SIZE > MIN_MIN_WRITE_ALLOC_SIZE then MIN_WRITE_SIZE else MIN_MIN_WRITE_ALLOC_SIZE

/-- `static const int IN_FLIGHT_FLUSH_WRITE_LIMIT = 8;` -/
def IN_FLIGHT_FLUSH_WRITE_LIMIT : Nat := 8

/-- `static const int IN_FLIGHT_FLUSH_BYTES_LIMIT = (1 * 1024 * 1024);` -/
def IN_FLIGHT_FLUSH_BYTES_LIMIT : Nat := 1 * 1024 * 1024

/-- `static const unsigned long int MAX_ALLOC_PER_TRANSACTION = 8;` -/
def MAX_ALLOC_PER_TRANSACTION : Nat := 8

/-! ### Extents

An image `Extent` is `(offset_bytes, length_bytes)`; a `BlockExtent` is the
inclusive pair `[block_start, block_end]` (librbd `BlockGuard.h`). -/

/-- Image extent `(first = offset_bytes, second = length_bytes)`. -/
structure Extent where
  first : Nat
  second : Nat
deriving DecidableEq, Repr

/-- Inclusive block extent `[block_start, block_end]`. -/
structure BlockExtent where
  block_start : Nat
  block_end : Nat
deriving DecidableEq, Repr

/-- `block_extent(offset_bytes, length_bytes)` from ReplicatedWriteLog.cc:
`BlockExtent(offset_bytes / MIN_WRITE_SIZE, ((offset_bytes + length_bytes) / MIN_WRITE_SIZE) - 1)`. -/
def block_extent_of (offset_bytes length_bytes : Nat) : BlockExtent :=
  ⟨offset_bytes / MIN_WRITE_SIZE, (offset_bytes + length_bytes) / MIN_WRITE_SIZE - 1⟩

/-- `block_extent(const Extent&)`. -/
def block_extent (e : Extent) : BlockExtent := block_extent_of e.first e.second

/-- `image_extent(const BlockExtent&)`:
`Extent(block_start * MIN_WRITE_SIZE, (block_end - block_start + 1) * MIN_WRITE_SIZE)`. -/
def image_extent (b : BlockExtent) : Extent :=
  ⟨b.block_start * MIN_WRITE_SIZE, (b.block_end - b.block_start + 1) * MIN_WRITE_SIZE⟩

/-- Two inclusive block extents overlap: neither ends before the other starts.
This is the negation of the `WriteLogMapEntryCompare` strict order in both
directions, which is exactly the band `equal_range` selects. -/
def overlapsB (a b : BlockExtent) : Bool :=
  !(decide (a.block_end < b.block_start) || decide (b.block_end < a.block_start))

/-- Propositional form of `overlapsB`. -/
def Overlaps (a b : BlockExtent) : Prop :=
  ¬(a.block_end < b.block_start ∨ b.block_end < a.block_start)

/-- Disjointness of two inclusive block extents. -/
def DisjointExt (a b : BlockExtent) : Prop :=
  a.block_end < b.block_start ∨ b.block_end < a.block_start

/-- Interval containment of inclusive block extents. -/
def SubExt (a b : BlockExtent) : Prop :=
  b.block_start ≤ a.block_start ∧ a.block_end ≤ b.block_end

instance (a b : BlockExtent) : Decidable (DisjointExt a b) := by
  unfold DisjointExt; infer_instance

instance (a b : BlockExtent) : Decidable (Overlaps a b) := by
  unfold Overlaps; infer_instance

instance (a b : BlockExtent) : Decidable (SubExt a b) := by
  unfold SubExt; infer_instance

/-! ### WriteLogMap (spec component C3)

`WriteLogMap` maps block extents to (portions of) write log entries.  We model
the `std::set<WriteLogMapEntry, WriteLogMapEntryCompare>` as a list of map
entries; `find_map_entries_locked` (an `equal_range` under the comparator
`lhs.block_extent.block_end < rhs.block_extent.block_start`) returns exactly
the entries whose extents overlap the query extent, which under the
no-overlap invariant is the filter below. -/

/-- A `WriteLogMapEntry`: a block extent plus the referred-to log entry
(identified here by a numeric id standing for the `shared_ptr` identity). -/
structure WriteLogMapEntry where
  block_extent : BlockExtent
  log_entry : Nat
deriving DecidableEq, Repr

/-- `find_map_entries_locked`: all map entries overlapping the query extent. -/
def find_map_entries (m : List WriteLogMapEntry) (q : BlockExtent) : List WriteLogMapEntry :=
  m.filter (fun e => overlapsB e.block_extent q)

/-- The transformation `add_log_entry_locked` applies to one pre-existing map
entry when the entry for extent `ne` is inserted, from ReplicatedWriteLog.cc
lines 192-227:
* no overlap: untouched (it is not in `overlap_entries`);
* `ne.block_start <= old.block_start` and `ne.block_end >= old.block_end`:
  wholly occluded, removed (`remove_map_entry_locked`);
* `ne.block_start <= old.block_start` and `ne.block_end < old.block_end`:
  the new entry occludes the beginning of the old one, which is adjusted to
  `[ne.block_end+1, old.block_end]` (`adjust_map_entry_locked`);
* `ne.block_start > old.block_start` and `ne.block_end >= old.block_end`:
  the new entry occludes the end of the old one, adjusted to
  `[old.block_start, ne.block_start-1]`;
* otherwise the new entry splits the old one into
  `[old.block_start, ne.block_start-1]` and `[ne.block_end+1, old.block_end]`
  (`split_map_entry_locked`), both still referring to the old log entry. -/
def occlude (ne : BlockExtent) (m : WriteLogMapEntry) : List WriteLogMapEntry :=
  if overlapsB m.block_extent ne then
    if ne.block_start ≤ m.block_extent.block_start then
      if ne.block_end ≥ m.block_extent.block_end then
        []
      else
        [⟨⟨ne.block_end + 1, m.block_extent.block_end⟩, m.log_entry⟩]
    else
      if ne.block_end ≥ m.block_extent.block_end then
        [⟨⟨m.block_extent.block_start, ne.block_start - 1⟩, m.log_entry⟩]
      else
        [⟨⟨m.block_extent.block_start, ne.block_start - 1⟩, m.log_entry⟩,
         ⟨⟨ne.block_end + 1, m.block_extent.block_end⟩, m.log_entry⟩]
  else
    [m]

/-- Apply `occlude` across the whole map (the loop over `overlap_entries`). -/
def occludeAll (ne : BlockExtent) : List WriteLogMapEntry → List WriteLogMapEntry
  | [] => []
  | m :: rest => occlude ne m ++ occludeAll ne rest

/-- `add_log_entry_locked`: occlude overlapped portions of pre-existing map
entries, then `add_map_entry_locked` the map entry covering the new log
entry's whole extent. -/
def add_log_entry (m : List WriteLogMapEntry) (ne : BlockExtent) (id : Nat) :
    List WriteLogMapEntry :=
  occludeAll ne m ++ [⟨ne, id⟩]

/-- `remove_log_entry_locked`: remove the map entries that overlap the log
entry's extent and refer to it. -/
def remove_log_entry (m : List WriteLogMapEntry) (ne : BlockExtent) (id : Nat) :
    List WriteLogMapEntry :=
  m.filter (fun e => !(overlapsB e.block_extent ne && decide (e.log_entry = id)))

/-- `referring_map_entries` as the map records it: the number of map entries
referring to a given log entry (invariant P3 of the spec equates the explicit
per-entry counter with this count). -/
def referring_map_entries (m : List WriteLogMapEntry) (id : Nat) : Nat :=
  (m.filter (fun e => decide (e.log_entry = id))).length

/-- Well-formedness of the map: every stored extent is non-empty. -/
def MapWF (m : List WriteLogMapEntry) : Prop :=
  ∀ e ∈ m, e.block_extent.block_start ≤ e.block_extent.block_end

/-- The no-overlap invariant I2: extents of map entries are pairwise disjoint. -/
def MapDisjoint (m : List WriteLogMapEntry) : Prop :=
  m.Pairwise (fun a b => DisjointExt a.block_extent b.block_extent)

instance (m : List WriteLogMapEntry) : Decidable (MapDisjoint m) := by
  unfold MapDisjoint; exact List.instDecidablePairwise _

instance (m : List WriteLogMapEntry) : Decidable (MapWF m) := by
  unfold MapWF; infer_instance

/-! ### Write log entries (volatile `WriteLogEntry` objects)

The fields a `WriteLogEntry` carries that matter to the claims; `id` stands
for the `shared_ptr` identity of the object. -/

structure WriteLogEntry where
  id : Nat
  image_offset_bytes : Nat
  write_bytes : Nat
  log_entry_index : Nat
  reader_count : Nat
  completed : Bool
  flushing : Bool
  flushed : Bool
deriving DecidableEq, Repr

/-- `WriteLogEntry::block_extent()`: the block extent of the entry's write. -/
def WriteLogEntry.block_extent (e : WriteLogEntry) : BlockExtent :=
  block_extent_of e.image_offset_bytes e.write_bytes

/-! ### Writeback engine (spec component C8): `can_flush_entry`,
`process_writeback_dirty_entries` (.cc lines 2357-2465) -/

/-- `can_flush_entry` (.cc lines 2357-2369):
`log_entry->completed && (m_flush_ops_in_flight <= IN_FLIGHT_FLUSH_WRITE_LIMIT)
&& (m_flush_bytes_in_flight <= IN_FLIGHT_FLUSH_BYTES_LIMIT)`. -/
def can_flush_entry (e : WriteLogEntry)
    (m_flush_ops_in_flight m_flush_bytes_in_flight : Nat) : Bool :=
  e.completed && decide (m_flush_ops_in_flight ≤ IN_FLIGHT_FLUSH_WRITE_LIMIT)
    && decide (m_flush_bytes_in_flight ≤ IN_FLIGHT_FLUSH_BYTES_LIMIT)

/-- The loop of `process_writeback_dirty_entries` (.cc lines 2438-2450): while
the dirty list is non-empty and its head passes `can_flush_entry`, pop it and
construct a flush write (`construct_flush_entry_ctx` bumps
`m_flush_ops_in_flight` by 1 and `m_flush_bytes_in_flight` by the entry's
`write_bytes`).  Returns the picked entries together with the counter values
at the moment each was picked. -/
def process_writeback_dirty_entries (m_flush_ops_in_flight m_flush_bytes_in_flight : Nat) :
    List WriteLogEntry → List (WriteLogEntry × Nat × Nat)
  | [] => []
  | e :: rest =>
    if can_flush_entry e m_flush_ops_in_flight m_flush_bytes_in_flight then
      (e, m_flush_ops_in_flight, m_flush_bytes_in_flight) ::
        process_writeback_dirty_entries (m_flush_ops_in_flight + 1)
          (m_flush_bytes_in_flight + e.write_bytes) rest
    else []

/-! ### Retire engine: `can_retire_entry`, `retire_entries`
(.cc lines 2467-2549) -/

/-- `can_retire_entry` (.cc lines 2467-2475):
`log_entry->flushed && 0 == log_entry->reader_count`. -/
def can_retire_entry (e : WriteLogEntry) : Bool :=
  e.flushed && decide (e.reader_count = 0)

/-- Result of the gathering loop of `retire_entries`. -/
structure RetireLoopResult where
  first_valid : Nat
  map : List WriteLogMapEntry
  remaining : List WriteLogEntry
  retired : List WriteLogEntry
deriving Repr

/-- The gathering loop of `retire_entries` (.cc lines 2493-2510): while
`m_log_entries` is non-empty, fewer than `MAX_ALLOC_PER_TRANSACTION` entries
have been gathered and the head passes `can_retire_entry`, advance the local
`first_valid_entry` cursor modulo `m_total_log_entries`, pop the head into the
retiring batch and `remove_log_entry` its map entries. -/
def retire_loop (total : Nat) :
    List WriteLogEntry → Nat → List WriteLogMapEntry → Nat → RetireLoopResult
  | [], fv, map, _ => ⟨fv, map, [], []⟩
  | e :: rest, fv, map, batch =>
    if batch < MAX_ALLOC_PER_TRANSACTION ∧ can_retire_entry e = true then
      let r := retire_loop total rest ((fv + 1) % total)
                 (remove_log_entry map e.block_extent e.id) (batch + 1)
      ⟨r.first_valid, r.map, r.remaining, e :: r.retired⟩
    else ⟨fv, map, e :: rest, []⟩

/-- The slice of RWL state `retire_entries` reads and writes. -/
structure RetireState where
  log_entries : List WriteLogEntry
  blocks_to_log_entries : List WriteLogMapEntry
  first_valid_entry : Nat
  total_log_entries : Nat
  free_log_entries : Nat
deriving Repr

/-- `retire_entries` (.cc lines 2482-2549): gather retirable entries from the
head of `m_log_entries`, then transactionally advance `first_valid_entry`,
free the retired data buffers, and credit `m_free_log_entries`. -/
def retire_entries (s : RetireState) : RetireState × List WriteLogEntry :=
  let r := retire_loop s.total_log_entries s.log_entries s.first_valid_entry
             s.blocks_to_log_entries 0
  ({ s with log_entries := r.remaining, blocks_to_log_entries := r.map,
            first_valid_entry := r.first_valid,
            free_log_entries := s.free_log_entries + r.retired.length },
   r.retired)

/-- The entries of `m_log_entries` occupy consecutive ring slots starting at
`m_first_valid_entry`, modulo `m_total_log_entries` (the order
`alloc_op_log_entries` establishes). -/
def ring_ordered (total : Nat) : Nat → List WriteLogEntry → Bool
  | _, [] => true
  | fv, e :: rest => decide (e.log_entry_index = fv) && ring_ordered total ((fv + 1) % total) rest

/-! ### Ring cursors and free-entry accounting (claim C1)

`rwl_init` (.cc lines 2072-2102) creates the pool with
`num_log_entries = num_small_writes - 1` and sets
`m_total_log_entries = m_free_log_entries = num_log_entries` and both cursors
to 0.  `alloc_write_resources` consumes `m_free_log_entries`;
`alloc_op_log_entries` (.cc lines 1071-1095) later advances
`m_first_free_entry = (m_first_free_entry + 1) % m_total_log_entries` per
operation; `retire_entries` advances `m_first_valid_entry` the same way and
credits `m_free_log_entries`.  The state below is the projection of the RWL
state these functions touch, and the operations apply one entry at a time
exactly as the loops do (`k` entries are `k` iterations; the composite
advance `(c + k) % total` equals `k` single steps `(c + 1) % total`). -/

structure RingState where
  total_log_entries : Nat
  first_free_entry : Nat
  first_valid_entry : Nat
  free_log_entries : Nat
  unappended_allocations : Nat
  live_entries : Nat
deriving DecidableEq, Repr

/-- The create path of `rwl_init`: ring empty, both cursors 0,
`m_free_log_entries = num_log_entries = m_total_log_entries`. -/
def rwl_init_state (num_log_entries : Nat) : RingState :=
  ⟨num_log_entries, 0, 0, num_log_entries, 0, 0⟩

/-- The ring-cursor-affecting operations. -/
inductive RingOp where
  | alloc_resources (k : Nat)
  | append_entries (k : Nat)
  | retire (k : Nat)
deriving Repr, DecidableEq

/-- One operation on the ring-cursor state:
* `alloc_resources k` is a successful `alloc_write_resources` of `k` extents
  (guarded by `m_free_log_entries >= k`);
* `append_entries k` is `alloc_op_log_entries` on a batch of `k` ops, each
  advancing `m_first_free_entry` by one modulo `m_total_log_entries`;
* `retire k` is a `retire_entries` round retiring `k` entries, advancing
  `m_first_valid_entry` the same way and crediting `m_free_log_entries`. -/
def ring_apply (s : RingState) : RingOp → Option RingState
  | .alloc_resources k =>
      if s.free_log_entries < k then none
      else some { s with free_log_entries := s.free_log_entries - k,
                         unappended_allocations := s.unappended_allocations + k }
  | .append_entries k =>
      if s.unappended_allocations < k then none
      else some { s with first_free_entry := (s.first_free_entry + k) % s.total_log_entries,
                         unappended_allocations := s.unappended_allocations - k,
                         live_entries := s.live_entries + k }
  | .retire k =>
      if s.live_entries < k then none
      else some { s with first_valid_entry := (s.first_valid_entry + k) % s.total_log_entries,
                         live_entries := s.live_entries - k,
                         free_log_entries := s.free_log_entries + k }

/-- Run a sequence of ring operations. -/
def ring_run : RingState → List RingOp → Option RingState
  | s, [] => some s
  | s, op :: ops =>
    match ring_apply s op with
    | none => none
    | some t => ring_run t ops

/-- The state reached from a fresh 2-slot ring after two single-extent writes
have allocated and appended, with nothing retired. -/
def c1_failing_state : RingState := ⟨2, 0, 0, 0, 0, 2⟩

/-! ### Write dispatch (claim C5): `dispatch_aio_write` (.cc lines 1436-1538) -/

/-- The `ram_entry` fields `dispatch_aio_write` stamps on each operation. -/
structure WriteLogOperationRec where
  sync_gen_number : Nat
  write_sequence_number : Nat
  sequenced : Bool
  sync_point : Bool
  unmap : Bool
  has_data : Bool
  image_offset_bytes : Nat
  write_bytes : Nat
deriving DecidableEq, Repr

/-- The per-extent loop of `dispatch_aio_write` (.cc lines 1463-1493): for
each image extent construct one operation; stamp `has_data = 1` and
`sync_gen_number = m_current_sync_gen`; in persist-on-flush mode assign
`write_sequence_number = 0` (sequence 0 is never used, `sequenced` stays 0
from the `WriteLogPmemEntry` constructor); otherwise assign
`write_sequence_number = ++m_last_op_sequence_num` and set `sequenced = 1`;
clear `sync_point` and `unmap`.  Returns the operations and the final
`m_last_op_sequence_num`. -/
def dispatch_ops (persist_on_flush : Bool) (current_sync_gen : Nat) :
    List Extent → Nat → List WriteLogOperationRec × Nat
  | [], last => ([], last)
  | ext :: rest, last =>
    let seqnum := if persist_on_flush then 0 else last + 1
    let last' := if persist_on_flush then last else last + 1
    let op : WriteLogOperationRec :=
      { sync_gen_number := current_sync_gen, write_sequence_number := seqnum,
        sequenced := !persist_on_flush, sync_point := false, unmap := false,
        has_data := true, image_offset_bytes := ext.first, write_bytes := ext.second }
    let r := dispatch_ops persist_on_flush current_sync_gen rest last'
    (op :: r.1, r.2)

/-! ### Write resource allocation (claim C6): `alloc_write_resources`
(.cc lines 1260-1335) -/

/-- `WriteBufferAllocation` (the reserved pmem buffer for one extent). -/
structure WriteBufferAllocation where
  allocation_size : Nat
deriving DecidableEq, Repr

/-- The counters `alloc_write_resources` reads and writes. -/
structure AllocCounters where
  free_lanes : Nat
  free_log_entries : Nat
  unpublished_reserves : Nat
deriving DecidableEq, Repr

/-- `WriteRequestResources`. -/
structure WriteRequestResources where
  allocated : Bool
  buffers : List WriteBufferAllocation
deriving DecidableEq, Repr

/-- Outcome of `alloc_write_resources`: the return value, the counters after,
the request's resources, and the reservations that were cancelled
(`pmemobj_cancel`) on the failure path. -/
structure AllocResult where
  succeeded : Bool
  counters : AllocCounters
  resources : WriteRequestResources
  cancelled : List WriteBufferAllocation
deriving DecidableEq, Repr

/-- The reservation loop of `alloc_write_resources` (.cc lines 1286-1307):
one `pmemobj_reserve` of `max(MIN_WRITE_ALLOC_SIZE, extent.second)` bytes per
extent; `reserve_ok i` tells whether the i-th reservation succeeds.  On the
first failure the failed buffer is popped and the loop breaks, leaving the
earlier reservations held.  Returns whether all succeeded and the
reservations held. -/
def reserve_buffers (reserve_ok : Nat → Bool) : List Extent → Nat → Bool × List WriteBufferAllocation
  | [], _ => (true, [])
  | ext :: rest, i =>
    let size := if ext.second > MIN_WRITE_ALLOC_SIZE then ext.second else MIN_WRITE_ALLOC_SIZE
    if reserve_ok i then
      let r := reserve_buffers reserve_ok rest (i + 1)
      (r.1, ⟨size⟩ :: r.2)
    else (false, [])

/-- `alloc_write_resources` (.cc lines 1260-1335): fail fast under the lock if
`m_free_lanes` or `m_free_log_entries` is short; reserve one pmem buffer per
extent; re-take the lock, re-verify both counters, and on success decrement
both by the number of extents, increment `m_unpublished_reserves` by the
same, and mark the resources allocated.  On any failure cancel every held
reservation and leave the counters untouched. -/
def alloc_write_resources (c : AllocCounters) (extents : List Extent)
    (reserve_ok : Nat → Bool) : AllocResult :=
  if c.free_lanes < extents.length then
    ⟨false, c, ⟨false, []⟩, []⟩
  else if c.free_log_entries < extents.length then
    ⟨false, c, ⟨false, []⟩, []⟩
  else
    let r := reserve_buffers reserve_ok extents 0
    if r.1 then
      if extents.length ≤ c.free_lanes ∧ extents.length ≤ c.free_log_entries then
        ⟨true,
         ⟨c.free_lanes - extents.length, c.free_log_entries - extents.length,
          c.unpublished_reserves + extents.length⟩,
         ⟨true, r.2⟩, []⟩
      else
        ⟨false, c, ⟨false, []⟩, r.2⟩
    else
      ⟨false, c, ⟨false, []⟩, r.2⟩

/-! ### Read path (claim C8): `aio_read` (.cc lines 571-694) -/

/-- The per-extent hit/miss segmentation loop of `aio_read` (.cc lines
615-682).  `offset` is `extent_offset`; for each overlapping map entry (in
block order): a gap before the entry becomes a miss extent; the portion of
the entry covering the read becomes a hit; a remainder after the last entry
becomes a final miss.  Returns `(miss_extents, read_extents)` where the
`Bool` marks a hit. -/
def read_extent_loop (first second : Nat) :
    List WriteLogMapEntry → Nat → List Extent × List (Extent × Bool)
  | [], offset =>
    if second > offset then
      ([⟨first + offset, second - offset⟩], [(⟨first + offset, second - offset⟩, false)])
    else ([], [])
  | entry :: rest, offset =>
    let eie := image_extent entry.block_extent
    let miss_len := if eie.first > first + offset then eie.first - (first + offset) else 0
    let miss_pre : List Extent :=
      if eie.first > first + offset then [⟨first + offset, miss_len⟩] else []
    let offset1 := offset + miss_len
    let entry_offset := if eie.first < first + offset1 then (first + offset1) - eie.first else 0
    let entry_hit_length := min (eie.second - entry_offset) (second - offset1)
    let hit : Extent := ⟨eie.first, entry_hit_length⟩
    let r := read_extent_loop first second rest (offset1 + entry_hit_length)
    (miss_pre ++ r.1, (miss_pre.map (fun e => (e, false))) ++ [(hit, true)] ++ r.2)

/-- `aio_read` over its image extents (after the alignment check): segment
each extent against the map; if no miss extents were produced, the request
completes from the log buffers alone (`read_ctx->complete(0)`), otherwise a
single read of the miss extents is issued to the layer below
(`m_image_writeback->aio_read`). -/
def aio_read_model (m : List WriteLogMapEntry) (image_extents : List Extent) :
    List Extent × Bool :=
  let misses := (image_extents.map (fun ext =>
    (read_extent_loop ext.first ext.second (find_map_entries m (block_extent ext)) 0).1)).flatten
  (misses, !misses.isEmpty)

/-! ### Front ends (claims C9, C10): alignment and read-only gating -/

/-- `is_block_aligned(const Extent&)` (.cc lines 354-359). -/
def is_block_aligned (extent : Extent) : Bool :=
  if extent.first % MIN_WRITE_SIZE ≠ 0 ∨ extent.second % MIN_WRITE_SIZE ≠ 0 then false
  else true

/-- `is_block_aligned(const Extents&)` (.cc lines 361-368). -/
def is_block_aligned_extents (image_extents : List Extent) : Bool :=
  image_extents.all (fun extent => is_block_aligned extent)

/-- How an `aio_*` entry point disposes of a request before the real work. -/
inductive AioFrontEnd where
  | erofs
  | einval
  | dispatched
deriving DecidableEq, Repr

/-- The gating of `aio_write` (.cc lines 1540-1572): complete with `-EROFS`
when a snapshot is current (`snap_id != CEPH_NOSNAP`) or the image is
read-only; complete with `-EINVAL` when the extents are not block aligned;
otherwise proceed to the guarded write path. -/
def aio_write_front (snap_id_set read_only : Bool) (image_extents : List Extent) : AioFrontEnd :=
  if snap_id_set || read_only then .erofs
  else if !is_block_aligned_extents image_extents then .einval
  else .dispatched

/-- The gating of `aio_read` (.cc lines 571-594): no read-only check;
complete with `-EINVAL` when the extents are not block aligned. -/
def aio_read_front (image_extents : List Extent) : AioFrontEnd :=
  if !is_block_aligned_extents image_extents then .einval
  else .dispatched

/-- The gating of `aio_discard` (.cc lines 1612-1630). -/
def aio_discard_front (snap_id_set read_only : Bool) : AioFrontEnd :=
  if snap_id_set || read_only then .erofs else .dispatched

/-- The gating of `aio_flush` (.cc lines 1728-1741). -/
def aio_flush_front (snap_id_set read_only : Bool) : AioFrontEnd :=
  if snap_id_set || read_only then .erofs else .dispatched

/-- The gating of `aio_writesame` (.cc lines 1793-1813): check read-only/
snapshot, then forward to `m_image_writeback->aio_writesame`. -/
def aio_writesame_front (snap_id_set read_only : Bool) : AioFrontEnd :=
  if snap_id_set || read_only then .erofs else .dispatched

/-- `aio_compare_and_write` (.cc lines 1828-1853): no read-only/snapshot
check at all; the request is forwarded directly to
`m_image_writeback->aio_compare_and_write`. -/
def aio_compare_and_write_front (snap_id_set read_only : Bool) : AioFrontEnd :=
  .dispatched

/-! ### Invalidate (claim C7): `invalidate` (.cc lines 2551-2625) -/

/-- `ReplicatedWriteLog::invalidate(Extents&&, Context*)` (.cc lines
2598-2625): the body is a TODO stub; its loop computes block offsets into
local variables with no effect on any RWL state, then completes `on_finish`
with 0.  In particular `m_blocks_to_log_entries` is left untouched, so the
map after equals the map before, and the completion code is 0. -/
def invalidate_extents (m : List WriteLogMapEntry) (image_extents : List Extent) :
    List WriteLogMapEntry × Int :=
  (m, 0)

/-- What the full-image `invalidate(Context*)` (.cc lines 2551-2596) does:
detain the block guard over the blocks of `(0, image_size)`, call the
RWL-local `invalidate({invalidate_extent}, ...)`, then invalidate the layer
below (`m_image_writeback->invalidate`), complete, and release the guard. -/
structure InvalidateOutcome where
  guarded_over_full_image : Bool
  lower_layer_invalidated : Bool
  map_after : List WriteLogMapEntry
deriving DecidableEq, Repr

/-- The full-image `invalidate` pipeline. -/
def rwl_invalidate (m : List WriteLogMapEntry) (image_size : Nat) : InvalidateOutcome :=
  { guarded_over_full_image := true,
    lower_layer_invalidated := true,
    map_after := (invalidate_extents m [⟨0, image_size⟩]).1 }

/-! ### Concrete states used by counterexamples and witnesses -/

/-- A completed dirty entry used in the C4 counterexample. -/
def c4_entry : WriteLogEntry :=
  { id := 0, image_offset_bytes := 0, write_bytes := 4096, log_entry_index := 0,
    reader_count := 0, completed := true, flushing := false, flushed := false }

/-- A flushed, completed, reader-free entry at ring slot 0 (C2 witness). -/
def c2_entry : WriteLogEntry :=
  { id := 5, image_offset_bytes := 0, write_bytes := 1, log_entry_index := 0,
    reader_count := 0, completed := true, flushing := false, flushed := true }

/-- A retire state holding `c2_entry` and its single map entry (C2 witness). -/
def c2_state : RetireState :=
  { log_entries := [c2_entry], blocks_to_log_entries := [⟨⟨0, 0⟩, 5⟩],
    first_valid_entry := 0, total_log_entries := 4, free_log_entries := 0 }

/-! ## Theorems -/

/-! ### The block-extent map keeps non-overlapping entries (claim C3) -/

theorem overlapsB_eq_true_iff (a b : BlockExtent) : overlapsB a b = true ↔ Overlaps a b := by
  unfold overlapsB Overlaps
  simp only [Bool.not_eq_true', Bool.or_eq_false_iff, decide_eq_false_iff_not]
  tauto

theorem disjoint_iff_not_overlaps (a b : BlockExtent) :
    DisjointExt a b ↔ ¬Overlaps a b := by
  unfold DisjointExt Overlaps
  tauto

theorem DisjointExt.mono {a b a' b' : BlockExtent} (h : DisjointExt a b)
    (ha : SubExt a' a) (hb : SubExt b' b) : DisjointExt a' b' := by
  rcases h with h | h
  · exact Or.inl (lt_of_le_of_lt ha.2 (lt_of_lt_of_le h hb.1))
  · exact Or.inr (lt_of_le_of_lt hb.2 (lt_of_lt_of_le h ha.1))

/-- Extract the arithmetic content of a true `overlapsB`. -/
theorem overlapsB_bounds {a b : BlockExtent} (h : overlapsB a b = true) :
    b.block_start ≤ a.block_end ∧ a.block_start ≤ b.block_end := by
  rw [overlapsB_eq_true_iff] at h
  unfold Overlaps at h
  push_neg at h
  exact h

/-- Every piece `occlude` produces lies inside the original map entry's extent
and refers to the same log entry. -/
theorem occlude_sub_and_id (ne : BlockExtent) (m : WriteLogMapEntry) :
    ∀ p ∈ occlude ne m, SubExt p.block_extent m.block_extent ∧ p.log_entry = m.log_entry := by
  intro p hp
  unfold occlude at hp
  split_ifs at hp with hov h1 h2 h3 <;>
    simp only [List.mem_cons, List.not_mem_nil, or_false] at hp
  · obtain ⟨hb1, hb2⟩ := overlapsB_bounds hov
    subst hp
    refine ⟨⟨?_, ?_⟩, rfl⟩ <;> (dsimp only [SubExt]; omega)
  · obtain ⟨hb1, hb2⟩ := overlapsB_bounds hov
    subst hp
    refine ⟨⟨?_, ?_⟩, rfl⟩ <;> (dsimp only [SubExt]; omega)
  · obtain ⟨hb1, hb2⟩ := overlapsB_bounds hov
    rcases hp with hp | hp <;> subst hp <;>
      (refine ⟨⟨?_, ?_⟩, rfl⟩ <;> (dsimp only [SubExt]; omega))
  · subst hp
    exact ⟨⟨le_refl _, le_refl _⟩, rfl⟩

/-- Every piece `occlude` produces is disjoint from the extent of the newly
added entry. -/
theorem occlude_disjoint_new (ne : BlockExtent) (m : WriteLogMapEntry) :
    ∀ p ∈ occlude ne m, DisjointExt p.block_extent ne := by
  intro p hp
  unfold occlude at hp
  split_ifs at hp with hov h1 h2 h3 <;>
    simp only [List.mem_cons, List.not_mem_nil, or_false] at hp
  · subst hp
    exact Or.inr (by dsimp only; omega)
  · subst hp
    simp only [not_le] at h1
    exact Or.inl (by dsimp only; omega)
  · simp only [not_le] at h1
    rcases hp with hp | hp <;> subst hp
    · exact Or.inl (by dsimp only; omega)
    · exact Or.inr (by dsimp only; omega)
  · subst hp
    rw [disjoint_iff_not_overlaps]
    rw [Bool.not_eq_true] at hov
    intro hc
    rw [← overlapsB_eq_true_iff] at hc
    rw [hov] at hc
    exact Bool.false_ne_true hc

/-- Every piece `occlude` produces is a well-formed (non-empty) extent. -/
theorem occlude_wf (ne : BlockExtent) (m : WriteLogMapEntry)
    (hm : m.block_extent.block_start ≤ m.block_extent.block_end) :
    ∀ p ∈ occlude ne m, p.block_extent.block_start ≤ p.block_extent.block_end := by
  intro p hp
  unfold occlude at hp
  split_ifs at hp with hov h1 h2 h3 <;>
    simp only [List.mem_cons, List.not_mem_nil, or_false] at hp
  · subst hp
    simp only [not_le] at h2
    dsimp only
    omega
  · subst hp
    simp only [not_le] at h1
    dsimp only
    omega
  · simp only [not_le] at h1 h3
    rcases hp with hp | hp <;> subst hp <;> (dsimp only; omega)
  · subst hp
    exact hm

/-- The pieces `occlude` produces for one map entry are pairwise disjoint. -/
theorem occlude_pairwise (ne : BlockExtent) (m : WriteLogMapEntry)
    (hne : ne.block_start ≤ ne.block_end) :
    (occlude ne m).Pairwise (fun a b => DisjointExt a.block_extent b.block_extent) := by
  unfold occlude
  split_ifs with hov h1 h2 h3
  · exact List.Pairwise.nil
  · exact List.pairwise_singleton _ _
  · exact List.pairwise_singleton _ _
  · refine List.Pairwise.cons ?_ (List.pairwise_singleton _ _)
    intro b hb
    simp only [List.mem_cons, List.not_mem_nil, or_false] at hb
    subst hb
    exact Or.inl (by dsimp only; omega)
  · exact List.pairwise_singleton _ _

/-- Membership in `occludeAll` comes from `occlude` on some entry of the map. -/
theorem occludeAll_mem (ne : BlockExtent) (l : List WriteLogMapEntry) (p : WriteLogMapEntry) :
    p ∈ occludeAll ne l ↔ ∃ e ∈ l, p ∈ occlude ne e := by
  induction l with
  | nil => simp [occludeAll]
  | cons e rest ih =>
    simp only [occludeAll, List.mem_append, ih, List.mem_cons]
    constructor
    · rintro (h | ⟨e', he', hp⟩)
      · exact ⟨e, Or.inl rfl, h⟩
      · exact ⟨e', Or.inr he', hp⟩
    · rintro ⟨e', (rfl | he'), hp⟩
      · exact Or.inl hp
      · exact Or.inr ⟨e', he', hp⟩

/-- `occludeAll` preserves pairwise disjointness of the map. -/
theorem occludeAll_pairwise (ne : BlockExtent) (l : List WriteLogMapEntry)
    (hl : MapDisjoint l) (hne : ne.block_start ≤ ne.block_end) :
    MapDisjoint (occludeAll ne l) := by
  unfold MapDisjoint at *
  induction l with
  | nil => exact List.Pairwise.nil
  | cons e rest ih =>
    rw [List.pairwise_cons] at hl
    simp only [occludeAll, List.pairwise_append]
    refine ⟨occlude_pairwise ne e hne, ih hl.2, ?_⟩
    intro a ha b hb
    obtain ⟨e', he', hb'⟩ := (occludeAll_mem ne rest b).mp hb
    exact (hl.1 e' he').mono (occlude_sub_and_id ne e a ha).1 (occlude_sub_and_id ne e' b hb').1

/-- C3: the block-extent-to-log-entry map never contains two overlapping map
entries: `add_log_entry` preserves pairwise disjointness (removing wholly
occluded entries, shrinking partially occluded ones, and splitting an entry
that strictly contains the new extent into a left and right remainder, which
increments the old log entry's referring-map-entry count), and
`remove_log_entry` preserves it as well. -/
theorem c3_map_entries_never_overlap (m : List WriteLogMapEntry) (ne : BlockExtent) (id : Nat)
    (hdisj : MapDisjoint m) (hwf : MapWF m) (hne : ne.block_start ≤ ne.block_end) :
    MapDisjoint (add_log_entry m ne id) ∧ MapWF (add_log_entry m ne id) ∧
    (∀ ne' id', MapDisjoint (remove_log_entry m ne' id')) ∧
    (∀ e ∈ m, e.block_extent.block_start < ne.block_start →
      ne.block_end < e.block_extent.block_end →
      occlude ne e = [⟨⟨e.block_extent.block_start, ne.block_start - 1⟩, e.log_entry⟩,
                      ⟨⟨ne.block_end + 1, e.block_extent.block_end⟩, e.log_entry⟩] ∧
      referring_map_entries (occlude ne e) e.log_entry =
        referring_map_entries [e] e.log_entry + 1) := by
  refine ⟨?_, ?_, ?_, ?_⟩
  · unfold add_log_entry MapDisjoint
    rw [List.pairwise_append]
    refine ⟨occludeAll_pairwise ne m hdisj hne, List.pairwise_singleton _ _, ?_⟩
    intro a ha b hb
    simp only [List.mem_cons, List.not_mem_nil, or_false] at hb
    subst hb
    obtain ⟨e', he', ha'⟩ := (occludeAll_mem ne m a).mp ha
    exact occlude_disjoint_new ne e' a ha'
  · unfold add_log_entry MapWF
    intro p hp
    rw [List.mem_append] at hp
    rcases hp with hp | hp
    · obtain ⟨e', he', hp'⟩ := (occludeAll_mem ne m p).mp hp
      exact occlude_wf ne e' (hwf e' he') p hp'
    · simp only [List.mem_cons, List.not_mem_nil, or_false] at hp
      subst hp
      exact hne
  · intro ne' id'
    unfold remove_log_entry MapDisjoint
    exact List.Pairwise.sublist (List.filter_sublist m) hdisj
  · intro e he hlt1 hlt2
    have hov : overlapsB e.block_extent ne = true := by
      rw [overlapsB_eq_true_iff]
      unfold Overlaps
      push_neg
      omega
    have hocc : occlude ne e =
        [⟨⟨e.block_extent.block_start, ne.block_start - 1⟩, e.log_entry⟩,
         ⟨⟨ne.block_end + 1, e.block_extent.block_end⟩, e.log_entry⟩] := by
      unfold occlude
      rw [if_pos hov, if_neg (by omega), if_neg (by omega)]
    refine ⟨hocc, ?_⟩
    rw [hocc]
    simp [referring_map_entries]

/-- Witness for `c3_map_entries_never_overlap` at a concrete map. -/
theorem c3_map_entries_never_overlap_witness :
    MapDisjoint ([⟨⟨0, 9⟩, 0⟩] : List WriteLogMapEntry) ∧
    MapDisjoint (add_log_entry [⟨⟨0, 9⟩, 0⟩] ⟨3, 5⟩ 1) ∧
    referring_map_entries (occlude ⟨3, 5⟩ ⟨⟨0, 9⟩, 0⟩) 0 = 2 :=
  ⟨by decide,
   (c3_map_entries_never_overlap [⟨⟨0, 9⟩, 0⟩] ⟨3, 5⟩ 1 (by decide) (by decide) (by decide)).1,
   by
    have h := (c3_map_entries_never_overlap [⟨⟨0, 9⟩, 0⟩] ⟨3, 5⟩ 1 (by decide) (by decide)
      (by decide)).2.2.2 ⟨⟨0, 9⟩, 0⟩ (by decide) (by decide) (by decide)
    rw [h.2]
    decide⟩

/-! ### Ring cursors (claim C1)

The header documents the ring as: "When `m_first_free_entry ==
m_first_valid_entry`, the log is empty.  There is always at least one free
entry, which can't be used", and the create path comments `num_log_entries =
num_small_writes-1 // leave one free`.  But `rwl_init` initialises
`m_free_log_entries` to `num_log_entries` — the same value as the cursor
modulus `m_total_log_entries` — so the code lets all `m_total_log_entries`
ring slots fill, at which point `m_first_free_entry` has wrapped all the way
around onto `m_first_valid_entry` while the ring is full, not empty.  The
run below exhibits this on a 2-slot ring: two single-extent writes allocate
and append, and the resulting reachable state has equal cursors, two live
entries, and `free_log_entries = 0`, which differs from the specified
`(first_valid - first_free - 1) mod N` (that formula yields `N - 1` here,
for `N` the ring modulus or the physical slot count). -/

/-- C1: the claimed cursor invariant fails on a reachable state: starting
from `rwl_init` with a 2-slot ring, two allocate-append rounds (with no
retire) produce a state where `first_free_entry == first_valid_entry` yet
two entries are live (so equality of the cursors does not imply emptiness,
and no slot was kept unusable), and where `free_log_entries` (= 0) differs
from `(first_valid - first_free - 1) mod N` for `N = total` and
`N = total + 1`. -/
theorem c1_full_ring_indistinguishable_from_empty :
    ring_run (rwl_init_state 2)
      [.alloc_resources 1, .append_entries 1, .alloc_resources 1, .append_entries 1] =
      some c1_failing_state ∧
    c1_failing_state.first_free_entry = c1_failing_state.first_valid_entry ∧
    c1_failing_state.live_entries ≠ 0 ∧
    c1_failing_state.free_log_entries ≠
      (c1_failing_state.first_valid_entry + c1_failing_state.total_log_entries
        - c1_failing_state.first_free_entry - 1) % c1_failing_state.total_log_entries ∧
    c1_failing_state.free_log_entries ≠
      (c1_failing_state.first_valid_entry + (c1_failing_state.total_log_entries + 1)
        - c1_failing_state.first_free_entry - 1) % (c1_failing_state.total_log_entries + 1) := by
  decide

/-! ### Writeback eligibility (claim C4)

`can_flush_entry` compares the in-flight counters with `<=`, not `<`: an
entry is picked for writeback even when `m_flush_ops_in_flight` or
`m_flush_bytes_in_flight` already equals its limit. -/

/-- C4 counterexample: with `m_flush_ops_in_flight` already equal to
`IN_FLIGHT_FLUSH_WRITE_LIMIT`, `process_writeback_dirty_entries` still picks
the completed head of the dirty list, so "strictly under the limit" is false
of the code (and symmetrically for the bytes limit). -/
theorem c4_counterexample_pick_at_limit :
    process_writeback_dirty_entries IN_FLIGHT_FLUSH_WRITE_LIMIT 0 [c4_entry] =
      [(c4_entry, IN_FLIGHT_FLUSH_WRITE_LIMIT, 0)] ∧
    ¬(IN_FLIGHT_FLUSH_WRITE_LIMIT < IN_FLIGHT_FLUSH_WRITE_LIMIT) ∧
    process_writeback_dirty_entries 0 IN_FLIGHT_FLUSH_BYTES_LIMIT [c4_entry] =
      [(c4_entry, 0, IN_FLIGHT_FLUSH_BYTES_LIMIT)] ∧
    ¬(IN_FLIGHT_FLUSH_BYTES_LIMIT < IN_FLIGHT_FLUSH_BYTES_LIMIT) := by
  decide

/-- C4 (amended): every entry `process_writeback_dirty_entries` picks is
picked from the head of `dirty_log_entries` (the picked entries are an
in-order prefix), is completed, and at the moment it is picked
`m_flush_ops_in_flight ≤ IN_FLIGHT_FLUSH_WRITE_LIMIT` and
`m_flush_bytes_in_flight ≤ IN_FLIGHT_FLUSH_BYTES_LIMIT` (at most the limits;
the code compares with `<=`, not `<`). -/
theorem c4_flush_pick_conditions (ops bytes : Nat) (dirty : List WriteLogEntry) :
    (∀ x ∈ process_writeback_dirty_entries ops bytes dirty,
      x.1.completed = true ∧ x.2.1 ≤ IN_FLIGHT_FLUSH_WRITE_LIMIT ∧
      x.2.2 ≤ IN_FLIGHT_FLUSH_BYTES_LIMIT) ∧
    (process_writeback_dirty_entries ops bytes dirty).map Prod.fst =
      dirty.take (process_writeback_dirty_entries ops bytes dirty).length := by
  induction dirty generalizing ops bytes with
  | nil => exact ⟨by intro x hx; simp [process_writeback_dirty_entries] at hx, rfl⟩
  | cons e rest ih =>
    by_cases h : can_flush_entry e ops bytes = true
    · have hcompleted : e.completed = true := by
        unfold can_flush_entry at h
        simp only [Bool.and_eq_true, decide_eq_true_eq] at h
        exact h.1.1
      have hops : ops ≤ IN_FLIGHT_FLUSH_WRITE_LIMIT := by
        unfold can_flush_entry at h
        simp only [Bool.and_eq_true, decide_eq_true_eq] at h
        exact h.1.2
      have hbytes : bytes ≤ IN_FLIGHT_FLUSH_BYTES_LIMIT := by
        unfold can_flush_entry at h
        simp only [Bool.and_eq_true, decide_eq_true_eq] at h
        exact h.2
      constructor
      · intro x hx
        simp only [process_writeback_dirty_entries, if_pos h, List.mem_cons] at hx
        rcases hx with hx | hx
        · subst hx
          exact ⟨hcompleted, hops, hbytes⟩
        · exact (ih (ops + 1) (bytes + e.write_bytes)).1 x hx
      · simp only [process_writeback_dirty_entries, if_pos h, List.map_cons, List.length_cons,
          List.take_succ_cons]
        rw [(ih (ops + 1) (bytes + e.write_bytes)).2]
    · rw [Bool.not_eq_true] at h
      constructor
      · intro x hx
        simp only [process_writeback_dirty_entries, h, Bool.false_eq_true, if_false,
          List.not_mem_nil] at hx
      · simp [process_writeback_dirty_entries, h]

/-- Witness for `c4_flush_pick_conditions`: a completed entry picked at
counters `(0, 0)`. -/
theorem c4_flush_pick_conditions_witness :
    c4_entry.completed = true ∧ (0 : Nat) ≤ IN_FLIGHT_FLUSH_WRITE_LIMIT ∧
    (0 : Nat) ≤ IN_FLIGHT_FLUSH_BYTES_LIMIT :=
  (c4_flush_pick_conditions 0 0 [c4_entry]).1 (c4_entry, 0, 0) (by decide)

/-! ### Invalidate leaves the map untouched (claim C7)

The guard and the lower-layer invalidate do happen, but the RWL-local
`invalidate(Extents&&, Context*)` is a stub: it completes with 0 without
touching `m_blocks_to_log_entries`, so a read of the invalidated region
issued after `invalidate` completes is still served from the log entries
that were live before — it is not treated as a miss, contradicting both the
claim and the code's own comments ("The invalidate will append an
invalidate entry to the log, which will cause [reads] to that extent to be
treated as misses"). -/

/-- C7: after a full-image `invalidate` on an image of 512 bytes whose map
holds one live entry covering blocks `[0, 511]`, the block guard was taken
over the full image and the lower layer was invalidated, but the map is
unchanged, a lookup still finds the old entry, and a subsequent read of the
whole image produces no miss extents at all (it is served entirely from the
pre-invalidate log entry, with no lower-layer read). -/
theorem c7_invalidate_leaves_old_entries_readable :
    (rwl_invalidate [⟨⟨0, 511⟩, 0⟩] 512).guarded_over_full_image = true ∧
    (rwl_invalidate [⟨⟨0, 511⟩, 0⟩] 512).lower_layer_invalidated = true ∧
    (rwl_invalidate [⟨⟨0, 511⟩, 0⟩] 512).map_after = [⟨⟨0, 511⟩, 0⟩] ∧
    find_map_entries (rwl_invalidate [⟨⟨0, 511⟩, 0⟩] 512).map_after ⟨0, 511⟩ =
      [⟨⟨0, 511⟩, 0⟩] ∧
    (aio_read_model (rwl_invalidate [⟨⟨0, 511⟩, 0⟩] 512).map_after [⟨0, 512⟩]).1 = [] ∧
    (aio_read_model (rwl_invalidate [⟨⟨0, 511⟩, 0⟩] 512).map_after [⟨0, 512⟩]).2 = false := by
  decide

/-! ### Unaligned-rejection unreachability (claim C9) -/

/-- C9: because `MIN_WRITE_SIZE` is 1, `is_block_aligned` accepts every
extent and every extent list, so the `-EINVAL` unaligned-rejection branch of
`aio_read` and `aio_write` is unreachable. -/
theorem c9_unaligned_rejection_unreachable :
    (∀ e : Extent, is_block_aligned e = true) ∧
    (∀ es : List Extent, is_block_aligned_extents es = true) ∧
    (∀ es : List Extent, aio_read_front es ≠ .einval) ∧
    (∀ s r : Bool, ∀ es : List Extent, aio_write_front s r es ≠ .einval) := by
  have h1 : ∀ e : Extent, is_block_aligned e = true := by
    intro e
    unfold is_block_aligned MIN_WRITE_SIZE
    simp [Nat.mod_one]
  have h2 : ∀ es : List Extent, is_block_aligned_extents es = true := by
    intro es
    unfold is_block_aligned_extents
    rw [List.all_eq_true]
    intro e _
    exact h1 e
  refine ⟨h1, h2, ?_, ?_⟩
  · intro es
    unfold aio_read_front
    rw [h2 es]
    simp
  · intro s r es
    unfold aio_write_front
    rw [h2 es]
    rcases s <;> rcases r <;> simp

/-- Witness for `c9_unaligned_rejection_unreachable` at an extent that is
unaligned for any block size greater than 1. -/
theorem c9_unaligned_rejection_unreachable_witness :
    is_block_aligned ⟨1, 3⟩ = true ∧ aio_write_front false false [⟨1, 3⟩] ≠ .einval :=
  ⟨c9_unaligned_rejection_unreachable.1 ⟨1, 3⟩,
   c9_unaligned_rejection_unreachable.2.2.2 false false [⟨1, 3⟩]⟩

/-! ### compare-and-write skips the read-only check (claim C10) -/

/-- C10: `aio_compare_and_write` forwards every request to the lower layer
and never completes with `-EROFS`, even when a snapshot is current or the
image is read-only — unlike `aio_write`, `aio_discard`, `aio_flush` and
`aio_writesame`, which all reject such requests with `-EROFS`. -/
theorem c10_compare_and_write_skips_read_only_check :
    (∀ s r : Bool, aio_compare_and_write_front s r = .dispatched) ∧
    (∀ s r : Bool, aio_compare_and_write_front s r ≠ .erofs) ∧
    aio_write_front true false [] = .erofs ∧ aio_write_front false true [] = .erofs ∧
    aio_discard_front true false = .erofs ∧ aio_discard_front false true = .erofs ∧
    aio_flush_front true false = .erofs ∧ aio_flush_front false true = .erofs ∧
    aio_writesame_front true false = .erofs ∧ aio_writesame_front false true = .erofs := by
  refine ⟨fun s r => rfl, fun s r => by simp [aio_compare_and_write_front], ?_⟩
  decide

/-- Witness for `c10_compare_and_write_skips_read_only_check` on a read-only
image. -/
theorem c10_compare_and_write_skips_read_only_check_witness :
    aio_compare_and_write_front false true = .dispatched :=
  c10_compare_and_write_skips_read_only_check.1 false true

/-! ### Write sequence numbers (claim C5) -/

/-- `m_last_op_sequence_num` never decreases across a persist-on-write
dispatch. -/
theorem dispatch_ops_final_ge (gen : Nat) (extents : List Extent) (last : Nat) :
    last ≤ (dispatch_ops false gen extents last).2 := by
  induction extents generalizing last with
  | nil => simp [dispatch_ops]
  | cons e rest ih =>
    simp only [dispatch_ops, Bool.false_eq_true, if_false]
    exact Nat.le_trans (Nat.le_succ last) (ih (last + 1))

/-- In persist-on-write mode, every dispatched operation's sequence number is
strictly above the incoming `m_last_op_sequence_num` and at most the
outgoing one. -/
theorem dispatch_ops_pow_bounds (gen : Nat) (extents : List Extent) (last : Nat) :
    ∀ op ∈ (dispatch_ops false gen extents last).1,
      last < op.write_sequence_number ∧
      op.write_sequence_number ≤ (dispatch_ops false gen extents last).2 := by
  induction extents generalizing last with
  | nil =>
    intro op hop
    simp [dispatch_ops] at hop
  | cons e rest ih =>
    intro op hop
    simp only [dispatch_ops, Bool.false_eq_true, if_false, List.mem_cons] at hop
    have hfinal : (dispatch_ops false gen (e :: rest) last).2 =
        (dispatch_ops false gen rest (last + 1)).2 := by
      simp [dispatch_ops]
    rcases hop with hop | hop
    · subst hop
      rw [hfinal]
      exact ⟨Nat.lt_succ_self _, dispatch_ops_final_ge gen rest (last + 1)⟩
    · obtain ⟨h1, h2⟩ := ih (last + 1) op hop
      rw [hfinal]
      exact ⟨Nat.lt_of_succ_le (Nat.le_of_lt h1), h2⟩

/-- The sequence numbers a persist-on-write dispatch assigns form a strictly
increasing chain above the incoming `m_last_op_sequence_num`. -/
theorem dispatch_ops_pow_chain (gen : Nat) (extents : List Extent) (last : Nat) :
    List.Chain (· < ·) last
      ((dispatch_ops false gen extents last).1.map (fun op => op.write_sequence_number)) := by
  induction extents generalizing last with
  | nil => simp [dispatch_ops]
  | cons e rest ih =>
    simp only [dispatch_ops, Bool.false_eq_true, if_false, List.map_cons]
    exact List.Chain.cons (Nat.lt_succ_self last) (ih (last + 1))

/-- The mode-independent fields `dispatch_aio_write` stamps on every
operation: `sequenced` mirrors the mode, the sync generation is the current
one, and persist-on-flush assigns sequence number 0. -/
theorem dispatch_ops_fields (pof : Bool) (gen : Nat) (extents : List Extent) :
    ∀ (last : Nat), ∀ op ∈ (dispatch_ops pof gen extents last).1,
      op.sequenced = !pof ∧ op.sync_gen_number = gen ∧
      (pof = true → op.write_sequence_number = 0) := by
  induction extents with
  | nil =>
    intro last op hop
    simp [dispatch_ops] at hop
  | cons e rest ih =>
    intro last op hop
    unfold dispatch_ops at hop
    rcases pof with _ | _ <;>
      simp only [Bool.false_eq_true, if_false, if_true, List.mem_cons] at hop <;>
      rcases hop with hop | hop
    · subst hop; exact ⟨rfl, rfl, fun h => by simp at h⟩
    · exact ih _ op hop
    · subst hop; exact ⟨rfl, rfl, fun _ => rfl⟩
    · exact ih _ op hop

/-- C5: a dispatched operation's `write_sequence_number` is 0 iff the
operation set was dispatched in persist-on-flush mode; in persist-on-write
mode the sequence number is positive, the `sequenced` flag is set, and the
sequence numbers are strictly increasing across the operations of the
dispatch and across any later persist-on-write dispatch continuing from the
resulting `m_last_op_sequence_num` (in particular within a sync
generation). -/
theorem c5_write_sequence_numbers (pof : Bool) (gen : Nat) (extents : List Extent) (last : Nat) :
    (∀ op ∈ (dispatch_ops pof gen extents last).1,
      (op.write_sequence_number = 0 ↔ pof = true) ∧
      op.sequenced = !pof ∧ op.sync_gen_number = gen) ∧
    (pof = false →
      ((dispatch_ops false gen extents last).1.map
        (fun op => op.write_sequence_number)).Chain' (· < ·) ∧
      (∀ op ∈ (dispatch_ops false gen extents last).1,
        0 < op.write_sequence_number ∧ last < op.write_sequence_number) ∧
      (∀ gen2 : Nat, ∀ extents2 : List Extent,
        ∀ op1 ∈ (dispatch_ops false gen extents last).1,
        ∀ op2 ∈ (dispatch_ops false gen2 extents2 (dispatch_ops false gen extents last).2).1,
          op1.write_sequence_number < op2.write_sequence_number)) := by
  constructor
  · intro op hop
    have hfields := dispatch_ops_fields pof gen extents last op hop
    rcases pof with _ | _
    · obtain ⟨h1, _⟩ := dispatch_ops_pow_bounds gen extents last op hop
      exact ⟨⟨fun h0 => by omega, fun h => by simp at h⟩, hfields.1, hfields.2.1⟩
    · exact ⟨⟨fun _ => rfl, fun _ => hfields.2.2 rfl⟩, hfields.1, hfields.2.1⟩
  · intro hpof
    subst hpof
    refine ⟨?_, ?_, ?_⟩
    · have h := dispatch_ops_pow_chain gen extents last
      cases hm : (dispatch_ops false gen extents last).1.map
          (fun op => op.write_sequence_number) with
      | nil => exact trivial
      | cons x xs =>
        rw [hm] at h
        exact (List.chain_cons.mp h).2
    · intro op hop
      obtain ⟨h1, _⟩ := dispatch_ops_pow_bounds gen extents last op hop
      exact ⟨Nat.lt_of_le_of_lt (Nat.zero_le last) h1, h1⟩
    · intro gen2 extents2 op1 hop1 op2 hop2
      obtain ⟨_, h1b⟩ := dispatch_ops_pow_bounds gen extents last op1 hop1
      obtain ⟨h2a, _⟩ := dispatch_ops_pow_bounds gen2 extents2
        (dispatch_ops false gen extents last).2 op2 hop2
      exact Nat.lt_of_le_of_lt h1b h2a

/-- Witness for `c5_write_sequence_numbers`: two persist-on-write extents
dispatched from a fresh sequence counter get the strictly increasing
sequence numbers 1 and 2. -/
theorem c5_write_sequence_numbers_witness :
    ((dispatch_ops false 0 [⟨0, 512⟩, ⟨512, 512⟩] 0).1.map
      (fun op => op.write_sequence_number)).Chain' (· < ·) ∧
    (dispatch_ops false 0 [⟨0, 512⟩, ⟨512, 512⟩] 0).1.map
      (fun op => op.write_sequence_number) = [1, 2] :=
  ⟨((c5_write_sequence_numbers false 0 [⟨0, 512⟩, ⟨512, 512⟩] 0).2 rfl).1, by decide⟩

/-! ### All-or-nothing write resource allocation (claim C6) -/

/-- The C++ running-max idiom for the allocation size equals `max`. -/
theorem alloc_size_eq_max (s : Nat) :
    (if s > MIN_WRITE_ALLOC_SIZE then s else MIN_WRITE_ALLOC_SIZE) =
      max MIN_WRITE_ALLOC_SIZE s := by
  rcases Nat.lt_or_ge MIN_WRITE_ALLOC_SIZE s with h | h
  · rw [if_pos h, Nat.max_eq_right (Nat.le_of_lt h)]
  · rw [if_neg (Nat.not_lt.mpr h), Nat.max_eq_left h]

/-- When every reservation succeeds, `reserve_buffers` holds exactly one
buffer of size `max(MIN_WRITE_ALLOC_SIZE, extent.second)` per extent. -/
theorem reserve_buffers_success (rok : Nat → Bool) (extents : List Extent) :
    ∀ i, (reserve_buffers rok extents i).1 = true →
      (reserve_buffers rok extents i).2 =
        extents.map (fun ext =>
          (⟨max MIN_WRITE_ALLOC_SIZE ext.second⟩ : WriteBufferAllocation)) := by
  induction extents with
  | nil => intro i _; rfl
  | cons e rest ih =>
    intro i hok
    unfold reserve_buffers at hok ⊢
    by_cases h : rok i = true
    · rw [if_pos h] at hok ⊢
      have hok' : (reserve_buffers rok rest (i + 1)).1 = true := hok
      simp only [List.map_cons]
      congr 1
      · exact congrArg WriteBufferAllocation.mk (alloc_size_eq_max e.second)
      · exact ih (i + 1) hok'
    · rw [Bool.not_eq_true] at h
      rw [h] at hok
      simp at hok

/-- C6: `alloc_write_resources` is all-or-nothing.  On success it decrements
`m_free_lanes` and `m_free_log_entries` each by the number of extents
(having verified both were sufficient), increments `m_unpublished_reserves`
by the same, marks the resources allocated, leaves one buffer of size
`max(MIN_WRITE_ALLOC_SIZE, extent.second)` per extent, and cancels nothing.
On failure it returns with all three counters unchanged, the resources not
allocated, no buffer held, and every reservation that was made cancelled
(none were made when the up-front counter checks failed; otherwise exactly
the reservations the reserve loop was left holding). -/
theorem c6_alloc_write_resources_all_or_nothing (c : AllocCounters) (extents : List Extent)
    (rok : Nat → Bool) :
    ((alloc_write_resources c extents rok).succeeded = true →
      (alloc_write_resources c extents rok).counters =
        ⟨c.free_lanes - extents.length, c.free_log_entries - extents.length,
         c.unpublished_reserves + extents.length⟩ ∧
      extents.length ≤ c.free_lanes ∧ extents.length ≤ c.free_log_entries ∧
      (alloc_write_resources c extents rok).resources.allocated = true ∧
      (alloc_write_resources c extents rok).resources.buffers =
        extents.map (fun ext =>
          (⟨max MIN_WRITE_ALLOC_SIZE ext.second⟩ : WriteBufferAllocation)) ∧
      (alloc_write_resources c extents rok).cancelled = []) ∧
    ((alloc_write_resources c extents rok).succeeded = false →
      (alloc_write_resources c extents rok).counters = c ∧
      (alloc_write_resources c extents rok).resources.allocated = false ∧
      (alloc_write_resources c extents rok).resources.buffers = [] ∧
      ((c.free_lanes < extents.length ∨ c.free_log_entries < extents.length) →
        (alloc_write_resources c extents rok).cancelled = []) ∧
      (extents.length ≤ c.free_lanes → extents.length ≤ c.free_log_entries →
        (alloc_write_resources c extents rok).cancelled =
          (reserve_buffers rok extents 0).2)) := by
  unfold alloc_write_resources
  dsimp only
  split_ifs with h1 h2 h3 h4
  · exact ⟨fun h => by simp at h,
      fun _ => ⟨rfl, rfl, rfl, fun _ => rfl,
        fun hle _ => absurd h1 (Nat.not_lt.mpr hle)⟩⟩
  · exact ⟨fun h => by simp at h,
      fun _ => ⟨rfl, rfl, rfl, fun _ => rfl,
        fun _ hle => absurd h2 (Nat.not_lt.mpr hle)⟩⟩
  · refine ⟨fun _ => ⟨rfl, h4.1, h4.2, rfl, ?_, rfl⟩, fun h => by simp at h⟩
    exact reserve_buffers_success rok extents 0 h3
  · exact absurd ⟨Nat.le_of_not_lt h1, Nat.le_of_not_lt h2⟩ h4
  · refine ⟨fun h => by simp at h, fun _ => ⟨rfl, rfl, rfl, fun hor => ?_, fun _ _ => rfl⟩⟩
    rcases hor with hor | hor
    · exact absurd hor h1
    · exact absurd hor h2

/-! ### Retirement safety (claim C2) -/

/-- `remove_log_entry` only removes map entries. -/
theorem remove_log_entry_sublist (m : List WriteLogMapEntry) (ne : BlockExtent) (id : Nat) :
    (remove_log_entry m ne id).Sublist m :=
  List.filter_sublist m

/-- The map `retire_loop` leaves behind is a sublist of the incoming map. -/
theorem retire_loop_map_sublist (total : Nat) :
    ∀ (es : List WriteLogEntry) (fv : Nat) (map : List WriteLogMapEntry) (batch : Nat),
      (retire_loop total es fv map batch).map.Sublist map := by
  intro es
  induction es with
  | nil => intro fv map batch; exact List.Sublist.refl _
  | cons e rest ih =>
    intro fv map batch
    unfold retire_loop
    by_cases hc : batch < MAX_ALLOC_PER_TRANSACTION ∧ can_retire_entry e = true
    · rw [if_pos hc]
      exact List.Sublist.trans
        (ih ((fv + 1) % total) (remove_log_entry map e.block_extent e.id) (batch + 1))
        (remove_log_entry_sublist map e.block_extent e.id)
    · rw [if_neg hc]

/-- A log entry referred to by no map entry stays unreferred in any sublist
of the map. -/
theorem referring_zero_of_sublist {m' m : List WriteLogMapEntry} (h : m'.Sublist m)
    (id : Nat) (hz : referring_map_entries m id = 0) :
    referring_map_entries m' id = 0 := by
  unfold referring_map_entries at *
  have hsub := List.Sublist.filter (fun e => decide (e.log_entry = id)) h
  have := List.Sublist.length_le hsub
  omega

/-- After `remove_log_entry`, a log entry all of whose map entries overlapped
its extent has no referring map entries left. -/
theorem remove_log_entry_clears (map : List WriteLogMapEntry) (e : WriteLogEntry)
    (hcont : ∀ me ∈ map, me.log_entry = e.id →
      overlapsB me.block_extent e.block_extent = true) :
    referring_map_entries (remove_log_entry map e.block_extent e.id) e.id = 0 := by
  unfold referring_map_entries remove_log_entry
  rw [List.length_eq_zero, List.filter_eq_nil_iff]
  intro me hme
  rw [List.mem_filter] at hme
  simp only [Bool.not_eq_true', Bool.and_eq_false_iff, decide_eq_false_iff_not,
    decide_eq_true_eq] at hme ⊢
  intro hid
  rcases hme.2 with h | h
  · exact absurd (hcont me hme.1 hid) (by rw [h]; exact Bool.false_ne_true)
  · exact absurd hid h

/-- The conditions `can_retire_entry` checks, extracted. -/
theorem can_retire_entry_true {e : WriteLogEntry} (h : can_retire_entry e = true) :
    e.flushed = true ∧ e.reader_count = 0 := by
  unfold can_retire_entry at h
  simp only [Bool.and_eq_true, decide_eq_true_eq] at h
  exact h

/-- What the gathering loop of `retire_entries` guarantees: every retired
entry is flushed, completed (given that only completed entries ever become
flushed), has no readers, and ends with no referring map entries; the
retired entries are exactly an in-order prefix of `m_log_entries`; and their
ring slots are consecutive from the incoming `first_valid_entry`. -/
theorem retire_loop_spec (total : Nat) :
    ∀ (es : List WriteLogEntry) (fv : Nat) (map : List WriteLogMapEntry) (batch : Nat),
    (∀ e ∈ es, e.flushed = true → e.completed = true) →
    (∀ me ∈ map, ∀ e ∈ es, me.log_entry = e.id →
      overlapsB me.block_extent e.block_extent = true) →
    ring_ordered total fv es = true →
    (∀ e ∈ (retire_loop total es fv map batch).retired,
      e.flushed = true ∧ e.completed = true ∧ e.reader_count = 0 ∧
      referring_map_entries (retire_loop total es fv map batch).map e.id = 0) ∧
    es = (retire_loop total es fv map batch).retired ++
      (retire_loop total es fv map batch).remaining ∧
    ring_ordered total fv (retire_loop total es fv map batch).retired = true := by
  intro es
  induction es with
  | nil =>
    intro fv map batch _ _ _
    refine ⟨?_, rfl, rfl⟩
    intro e he
    simp [retire_loop] at he
  | cons e rest ih =>
    intro fv map batch hfc hcont hring
    unfold retire_loop
    by_cases hc : batch < MAX_ALLOC_PER_TRANSACTION ∧ can_retire_entry e = true
    · rw [if_pos hc]
      have hring' : decide (e.log_entry_index = fv) = true ∧
          ring_ordered total ((fv + 1) % total) rest = true := by
        unfold ring_ordered at hring
        exact Bool.and_eq_true_iff.mp hring
      have hcont' : ∀ me ∈ remove_log_entry map e.block_extent e.id, ∀ e' ∈ rest,
          me.log_entry = e'.id → overlapsB me.block_extent e'.block_extent = true := by
        intro me hme e' he' hid
        exact hcont me (List.Sublist.mem hme (remove_log_entry_sublist map e.block_extent e.id))
          e' (List.mem_cons_of_mem e he') hid
      have hfc' : ∀ e' ∈ rest, e'.flushed = true → e'.completed = true :=
        fun e' he' => hfc e' (List.mem_cons_of_mem e he')
      obtain ⟨ih1, ih2, ih3⟩ := ih ((fv + 1) % total)
        (remove_log_entry map e.block_extent e.id) (batch + 1) hfc' hcont' hring'.2
      have hself : referring_map_entries
          (retire_loop total rest ((fv + 1) % total)
            (remove_log_entry map e.block_extent e.id) (batch + 1)).map e.id = 0 := by
        refine referring_zero_of_sublist
          (retire_loop_map_sublist total rest ((fv + 1) % total) _ (batch + 1)) e.id ?_
        exact remove_log_entry_clears map e
          (fun me hme hid => hcont me hme e (List.mem_cons_self e rest) hid)
      obtain ⟨hfl, hrc⟩ := can_retire_entry_true hc.2
      refine ⟨?_, ?_, ?_⟩
      · intro e' he'
        simp only [List.mem_cons] at he'
        rcases he' with he' | he'
        · subst he'
          exact ⟨hfl, hfc e' (List.mem_cons_self e' rest) hfl, hrc, hself⟩
        · exact ih1 e' he'
      · simpa using ih2
      · unfold ring_ordered
        rw [Bool.and_eq_true_iff]
        exact ⟨hring'.1, ih3⟩
    · rw [if_neg hc]
      refine ⟨?_, rfl, rfl⟩
      intro e' he'
      simp at he'

/-- C2: `retire_entries` retires an entry only if, at the moment of
retirement, it is flushed, completed, has `reader_count == 0` and (after the
map removal that retirement performs) `referring_map_entries == 0`, and only
from the head of the ring: the retired entries are an in-order prefix of
`m_log_entries` whose `log_entry_index` values are consecutive ring slots
starting at `m_first_valid_entry`.  Hypotheses: only completed entries ever
become flushed (the flush pipeline checks `completed` in `can_flush_entry`
before any entry can become `flushed`), every map entry referring to a log
entry lies within that entry's block extent (map entries are created as
sub-extents of their log entry), and `m_log_entries` sits in ring order (as
`alloc_op_log_entries` establishes). -/
theorem c2_retire_entries_only_safe (s : RetireState)
    (hfc : ∀ e ∈ s.log_entries, e.flushed = true → e.completed = true)
    (hcont : ∀ me ∈ s.blocks_to_log_entries, ∀ e ∈ s.log_entries,
      me.log_entry = e.id → overlapsB me.block_extent e.block_extent = true)
    (hring : ring_ordered s.total_log_entries s.first_valid_entry s.log_entries = true) :
    (∀ e ∈ (retire_entries s).2,
      e.flushed = true ∧ e.completed = true ∧ e.reader_count = 0 ∧
      referring_map_entries (retire_entries s).1.blocks_to_log_entries e.id = 0) ∧
    s.log_entries = (retire_entries s).2 ++ (retire_entries s).1.log_entries ∧
    ring_ordered s.total_log_entries s.first_valid_entry (retire_entries s).2 = true :=
  retire_loop_spec s.total_log_entries s.log_entries s.first_valid_entry
    s.blocks_to_log_entries 0 hfc hcont hring

/-- Witness for `c2_retire_entries_only_safe`: a single flushed, completed,
reader-free head entry is retired, its map entry removed. -/
theorem c2_retire_entries_only_safe_witness :
    c2_state.log_entries = (retire_entries c2_state).2 ++ (retire_entries c2_state).1.log_entries ∧
    (retire_entries c2_state).2 = [c2_entry] ∧
    referring_map_entries (retire_entries c2_state).1.blocks_to_log_entries c2_entry.id = 0 :=
  ⟨(c2_retire_entries_only_safe c2_state (by decide) (by decide) (by decide)).2.1,
   by decide,
   ((c2_retire_entries_only_safe c2_state (by decide) (by decide) (by decide)).1
     c2_entry (by decide)).2.2.2⟩

/-! ### Fully-hit reads issue no lower-layer read (claim C8) -/

/-- With `MIN_WRITE_SIZE = 1`, converting a block extent back to an image
extent yields `(block_start, block_end - block_start + 1)`. -/
theorem image_extent_eq (b : BlockExtent) :
    image_extent b = ⟨b.block_start, b.block_end - b.block_start + 1⟩ := by
  unfold image_extent MIN_WRITE_SIZE
  simp

/-- If the map entries passed to the segmentation loop tile the remainder of
the read extent contiguously — each begins exactly one block after its
predecessor ends, the first begins at or before the current read offset, and
the last ends at or beyond the end of the read — then the loop emits no miss
extent at all. -/
theorem read_extent_loop_no_miss (first second : Nat) :
    ∀ (es : List WriteLogMapEntry) (offset : Nat),
    (∀ e ∈ es, e.block_extent.block_start ≤ e.block_extent.block_end) →
    (∀ e ∈ es, e.block_extent.block_start < first + second) →
    List.Chain' (fun a b => b.block_extent.block_start = a.block_extent.block_end + 1) es →
    (offset < second → es ≠ [] ∧
      (es.head?.getD ⟨⟨0, 0⟩, 0⟩).block_extent.block_start ≤ first + offset) →
    (offset < second →
      first + second ≤ (es.getLast?.getD ⟨⟨0, 0⟩, 0⟩).block_extent.block_end + 1) →
    (read_extent_loop first second es offset).1 = [] := by
  intro es
  induction es with
  | nil =>
    intro offset _ _ _ hhead _
    unfold read_extent_loop
    rw [if_neg ?hcond]
    case hcond =>
      intro hgt
      exact absurd rfl (hhead hgt).1
  | cons e rest ih =>
    intro offset hwf hstart hchain hhead hlast
    have hwfe : e.block_extent.block_start ≤ e.block_extent.block_end :=
      hwf e (List.mem_cons_self e rest)
    have hle : e.block_extent.block_start ≤ first + offset := by
      rcases Nat.lt_or_ge offset second with hlt | hge
      · have h := (hhead hlt).2
        simpa using h
      · exact Nat.le_trans (Nat.le_of_lt (hstart e (List.mem_cons_self e rest)))
          (Nat.add_le_add_left hge first)
    unfold read_extent_loop
    rw [image_extent_eq]
    dsimp only
    rw [if_neg (Nat.not_lt.mpr hle), if_neg (Nat.not_lt.mpr hle)]
    simp only [Nat.add_zero, List.nil_append]
    have hoff : (if e.block_extent.block_start < first + offset
        then first + offset - e.block_extent.block_start else 0) =
        first + offset - e.block_extent.block_start := by
      split_ifs with h
      · rfl
      · omega
    rw [hoff]
    rcases rest with _ | ⟨e2, rest'⟩
    · have hstop : second ≤ offset +
          min (e.block_extent.block_end - e.block_extent.block_start + 1 -
            (first + offset - e.block_extent.block_start)) (second - offset) := by
        rcases Nat.lt_or_ge offset second with hlt | hge
        · have h := hlast hlt
          simp only [List.getLast?_singleton, Option.getD_some] at h
          omega
        · omega
      unfold read_extent_loop
      rw [if_neg (Nat.not_lt.mpr hstop)]
    · have he2 : e2.block_extent.block_start = e.block_extent.block_end + 1 :=
        (List.chain'_cons.mp hchain).1
      refine ih _ (fun x hx => hwf x (List.mem_cons_of_mem e hx))
        (fun x hx => hstart x (List.mem_cons_of_mem e hx))
        (List.chain'_cons.mp hchain).2 ?_ ?_
      · intro hlt'
        refine ⟨by simp, ?_⟩
        simp only [List.head?_cons, Option.getD_some]
        omega
      · intro hlt'
        have hofflt : offset < second := by omega
        have h := hlast hofflt
        rw [List.getLast?_cons_cons] at h
        exact h

/-- C8: a read whose every extent is entirely covered by the live log
entries the map lookup returns (they tile the extent contiguously, which is
what full coverage means for the pairwise disjoint, block-ordered entries of
`find_map_entries`) produces no miss extents, completes from the log
buffers alone, and issues no read to the lower layer. -/
theorem c8_fully_hit_read_no_lower_read (m : List WriteLogMapEntry)
    (image_extents : List Extent)
    (hcover : ∀ ext ∈ image_extents,
      (∀ e ∈ find_map_entries m (block_extent ext),
        e.block_extent.block_start ≤ e.block_extent.block_end) ∧
      (∀ e ∈ find_map_entries m (block_extent ext),
        e.block_extent.block_start < ext.first + ext.second) ∧
      List.Chain' (fun a b => b.block_extent.block_start = a.block_extent.block_end + 1)
        (find_map_entries m (block_extent ext)) ∧
      (0 < ext.second → find_map_entries m (block_extent ext) ≠ [] ∧
        ((find_map_entries m (block_extent ext)).head?.getD
          ⟨⟨0, 0⟩, 0⟩).block_extent.block_start ≤ ext.first) ∧
      (0 < ext.second → ext.first + ext.second ≤
        ((find_map_entries m (block_extent ext)).getLast?.getD
          ⟨⟨0, 0⟩, 0⟩).block_extent.block_end + 1)) :
    (aio_read_model m image_extents).1 = [] ∧ (aio_read_model m image_extents).2 = false := by
  have hmiss : (aio_read_model m image_extents).1 = [] := by
    unfold aio_read_model
    dsimp only
    rw [List.flatten_eq_nil_iff]
    intro l hl
    rw [List.mem_map] at hl
    obtain ⟨ext, hext, hle⟩ := hl
    obtain ⟨h1, h2, h3, h4, h5⟩ := hcover ext hext
    subst hle
    refine read_extent_loop_no_miss ext.first ext.second
      (find_map_entries m (block_extent ext)) 0 h1 h2 h3 ?_ ?_
    · intro hpos
      have := h4 hpos
      simpa using this
    · intro hpos
      exact h5 hpos
  refine ⟨hmiss, ?_⟩
  unfold aio_read_model at hmiss ⊢
  dsimp only at hmiss ⊢
  rw [hmiss]
  rfl

/-- Witness for `c8_fully_hit_read_no_lower_read`: a 3-byte read covered by
two contiguous live entries completes with no lower-layer read. -/
theorem c8_fully_hit_read_no_lower_read_witness :
    (aio_read_model [⟨⟨0, 0⟩, 1⟩, ⟨⟨1, 2⟩, 2⟩] [⟨0, 3⟩]).1 = [] ∧
    (aio_read_model [⟨⟨0, 0⟩, 1⟩, ⟨⟨1, 2⟩, 2⟩] [⟨0, 3⟩]).2 = false := by
  refine c8_fully_hit_read_no_lower_read [⟨⟨0, 0⟩, 1⟩, ⟨⟨1, 2⟩, 2⟩] [⟨0, 3⟩] ?_
  intro ext hext
  simp only [List.mem_singleton] at hext
  subst hext
  have hfind : find_map_entries [⟨⟨0, 0⟩, 1⟩, ⟨⟨1, 2⟩, 2⟩] (block_extent ⟨0, 3⟩) =
      [⟨⟨0, 0⟩, 1⟩, ⟨⟨1, 2⟩, 2⟩] := by decide
  rw [hfind]
  exact ⟨by decide, by decide, List.chain'_pair.mpr (by decide),
    fun _ => ⟨by decide, by decide⟩, fun _ => by decide⟩

/-- Witness for `c6_alloc_write_resources_all_or_nothing`: a successful
allocation for one 700-byte extent, and a failed one when the reservation
fails. -/
theorem c6_alloc_write_resources_all_or_nothing_witness :
    (alloc_write_resources ⟨256, 10, 0⟩ [⟨0, 700⟩] (fun _ => true)).counters =
      ⟨255, 9, 1⟩ ∧
    (alloc_write_resources ⟨256, 10, 0⟩ [⟨0, 700⟩] (fun _ => false)).counters =
      ⟨256, 10, 0⟩ :=
  ⟨by
    have h := (c6_alloc_write_resources_all_or_nothing ⟨256, 10, 0⟩ [⟨0, 700⟩]
      (fun _ => true)).1 (by decide)
    exact h.1,
   by
    have h := (c6_alloc_write_resources_all_or_nothing ⟨256, 10, 0⟩ [⟨0, 700⟩]
      (fun _ => false)).2 (by decide)
    exact h.1⟩

end RWL
